import Mathlib

/-!
Verification of the configuration normalizer and resolve-cache picker of the
rollup-plugin-ts repository.

The development shallowly embeds:
  - `pickResolvedModule` (source: `util/pick-resolved-module`),
  - the five tsconfig discriminator predicates and `getParsedCommandLine`
    (source: `src/util/get-parsed-command-line/get-parsed-command-line.ts`).

JavaScript objects holding compiler options are modelled as association lists
from string keys to JSON-style values; first-match lookup together with
`spreadOptions` (overrides prepended) gives the semantics of the JS object
spread expression used throughout the source (entry lists may therefore carry
shadowed duplicates; all statements about option contents go through
`lookupOption`). External collaborators (the typescript library's parse
functions, the file system, path utilities and repository constants that are
not part of the given sources) are modelled from the specification and marked
as such in their doc comments.
-/

/-- A JSON-style option value: string, number or boolean (the value space of
`Partial<Record<keyof CompilerOptions, string | number | boolean>>` and of
resolved `CompilerOptions` as far as the given sources inspect them). -/
inductive JsonValue where
  | str (s : String)
  | num (n : Int)
  | bool (b : Bool)
deriving DecidableEq

/-- A JavaScript object holding compiler options, as an association list.
Lookup is first-match, so earlier entries shadow later ones. -/
abbrev CompilerOptionsMap := List (String × JsonValue)

/-- First-match lookup of a key in an options object. -/
def lookupOption : CompilerOptionsMap → String → Option JsonValue
  | [], _ => none
  | (k, v) :: rest, key => if k = key then some v else lookupOption rest key

/-- Left-biased choice on optional values (used to state lookup over append). -/
def optionOr (a b : Option JsonValue) : Option JsonValue :=
  match a with
  | some v => some v
  | none => b

/-- The JS object spread `{...base, ...overrides}`: entries of `overrides`
shadow entries of `base` under first-match lookup. -/
def spreadOptions (base overrides : CompilerOptionsMap) : CompilerOptionsMap :=
  overrides ++ base

/-- Two options objects are equivalent when every key looks up to the same
value (JS object extensionality for the fields the engine reads). -/
def OptionsEquiv (a b : CompilerOptionsMap) : Prop :=
  ∀ k, lookupOption a k = lookupOption b k

/-- Modelled from the spec: the Resolved Module Reference record produced by
the compiler toolchain collaborator (its type declaration lives outside the
given sources): optional concrete resolution and optional ambient resolution. -/
structure ExtendedResolvedModule where
  resolvedFileName : Option String
  resolvedAmbientFileName : Option String
deriving DecidableEq

/-- Source translation of `pickResolvedModule` (util/pick-resolved-module):
with `preferAmbient` the JS body returns
`resolvedModule.resolvedAmbientFileName ?? resolvedModule.resolvedFileName!`;
the non-null assertion is erased at runtime, so the fallback is simply the
optional concrete resolution. Without `preferAmbient` it returns
`resolvedModule.resolvedFileName`. -/
def pickResolvedModule (resolvedModule : ExtendedResolvedModule) (preferAmbient : Bool) :
    Option String :=
  if preferAmbient then
    match resolvedModule.resolvedAmbientFileName with
    | some ambient => some ambient
    | none => resolvedModule.resolvedFileName
  else
    resolvedModule.resolvedFileName

/-- A ParsedCommandLine as far as the given sources inspect it: resolved
options, the file list and the accumulated diagnostics (`errors`). -/
structure ParsedCommandLine where
  options : CompilerOptionsMap
  fileNames : List String
  errors : List String
deriving DecidableEq

/-- The parsed JSON content of a tsconfig file: its `compilerOptions` object
and its optional `files` list (when absent, the typescript collaborator falls
back to the host file system's directory listing). -/
structure TsConfigJson where
  compilerOptions : CompilerOptionsMap
  files : Option (List String)
deriving DecidableEq

/-- The empty configuration (`{}` as configuration-file JSON, and also the
parse of empty configuration text). -/
def emptyTsConfigJson : TsConfigJson :=
  { compilerOptions := [], files := none }

/-- The file-system environment seen by the normalizer: the tsconfig files
present on disk together with their (already JSON-parsed) content, and the
directory listing the typescript `sys` host reports when a configuration has
no explicit `files` list. -/
structure FileSystemEnv where
  files : List (String × TsConfigJson)
  dirFiles : List String
deriving DecidableEq

/-- First-match lookup of a path among the environment's files. -/
def lookupFile : List (String × TsConfigJson) → String → Option TsConfigJson
  | [], _ => none
  | (p, j) :: rest, path => if p = path then some j else lookupFile rest path

/-- Modelled from the spec: the repository's `fileExistsSync` file-system
wrapper (its source is not among the given files) — a plain existence check. -/
def fileExistsSync (env : FileSystemEnv) (path : String) : Bool :=
  (lookupFile env.files path).isSome

/-- Modelled from the spec: reading a tsconfig file and parsing its text with
the external `parseConfigFileTextToJson`; collapsed into one step since the
environment stores files in already-parsed form. Absent files parse as the
empty configuration (this case is never reached by the embedded code). -/
def readTsConfigJson (env : FileSystemEnv) (path : String) : TsConfigJson :=
  (lookupFile env.files path).getD emptyTsConfigJson

/-- Character-list test that `l` starts with `p` (a computable stand-in for
`String.startsWith`, which does not reduce inside the kernel). -/
def listStartsWith : List Char → List Char → Bool
  | _, [] => true
  | [], _ :: _ => false
  | c :: cs, d :: ds => c == d && listStartsWith cs ds

/-- The `String.startsWith` observation, via the underlying character list. -/
def stringStartsWith (s pre : String) : Bool :=
  listStartsWith s.data pre.data

/-- The `String.endsWith` observation, via the underlying character list. -/
def stringEndsWith (s tail : String) : Bool :=
  listStartsWith s.data.reverse tail.data.reverse

/-- Modelled from the spec: the repository's `ensureAbsolute` path utility
(its source is not among the given files) — returns the path itself when it is
already absolute and otherwise resolves it against the working directory. -/
def ensureAbsolute (cwd path : String) : String :=
  if stringStartsWith path "/" then path else cwd ++ "/" ++ path

/-- Modelled from the spec: the fixed declaration-file extension constant from
the repository's constants module (not among the given files). -/
def DECLARATION_EXTENSION : String :=
  ".d.ts"

/-- Modelled from the spec: the external typescript collaborator's table
translating string enum spellings to numeric enum codes for the five
enum-typed options (module kind, target, JSX mode, module-resolution strategy,
newline style); a representative fragment of the real table. -/
def enumOptionCode (key spelling : String) : Option Int :=
  match key, spelling with
  | "module", "CommonJS" => some 1
  | "module", "ESNext" => some 99
  | "target", "ES5" => some 1
  | "target", "ES2019" => some 6
  | "target", "ESNext" => some 99
  | "jsx", "react" => some 2
  | "moduleResolution", "Node" => some 2
  | "newLine", "lf" => some 1
  | _, _ => none

/-- Modelled from the spec: conversion of one raw option value to its resolved
form — string enum spellings become numeric codes, everything else is kept. -/
def convertOptionValue (key : String) (v : JsonValue) : JsonValue :=
  match v with
  | .str s =>
    match enumOptionCode key s with
    | some n => .num n
    | none => .str s
  | other => other

/-- Modelled from the spec: conversion of a configuration-file-shaped options
object to resolved compiler options (the translation a configuration file
undergoes, per the spec's raw-options step). -/
def convertCompilerOptions (o : CompilerOptionsMap) : CompilerOptionsMap :=
  o.map (fun kv => (kv.1, convertOptionValue kv.1 kv.2))

/-- Modelled from the spec: the external typescript collaborator's
`parseJsonConfigFileContent(json, sys, cwd, existingOptions)`. Result options
are the json's compilerOptions translated to resolved form with
`existingOptions` taking priority (this priority is what makes forced
overrides, passed there by the normalizer, apply last); the file list is the
json's `files` list, or the `sys` host's directory listing when the json has
none. The optional config-file-name argument of the real function only
records provenance and is omitted. -/
def parseJsonConfigFileContent (json : TsConfigJson) (sysFiles : List String)
    (cwd : String) (existingOptions : CompilerOptionsMap) : ParsedCommandLine :=
  { options := spreadOptions (convertCompilerOptions json.compilerOptions) existingOptions
    fileNames := json.files.getD sysFiles
    errors := [] }

/-- The tsconfig input union of `IGetParsedCommandLineOptions`:
`string | Partial<CompilerOptions> | Partial<InputCompilerOptions> |
ParsedCommandLine | TsConfigResolver | TsConfigResolverWithFileName`.
An options record (enum-coded or raw) is one constructor, since the two are
distinguished only by a structural value check on the same object space. -/
inductive TsconfigInput where
  | parsedCmdLine (pcl : ParsedCommandLine)
  | optionsRecord (o : CompilerOptionsMap)
  | path (p : String)
  | resolver (f : CompilerOptionsMap → CompilerOptionsMap)
  | resolverWithFileName (fileName : String) (hook : CompilerOptionsMap → CompilerOptionsMap)

/-- The JS observation `typeof tsconfig === "string"` on the input union. -/
def typeofIsString : Option TsconfigInput → Bool
  | some (.path _) => true
  | _ => false

/-- The JS observation `typeof tsconfig === "function"` on the input union. -/
def typeofIsFunction : Option TsconfigInput → Bool
  | some (.resolver _) => true
  | _ => false

/-- The JS observation `"options" in tsconfig`: of the object shapes in the
declared union, only a ParsedCommandLine carries an `options` field. -/
def hasOptionsField : Option TsconfigInput → Bool
  | some (.parsedCmdLine _) => true
  | _ => false

/-- The JS observation `"hook" in tsconfig`: of the object shapes in the
declared union, only a TsConfigResolverWithFileName carries a `hook` field. -/
def hasHookField : Option TsconfigInput → Bool
  | some (.resolverWithFileName _ _) => true
  | _ => false

/-- The JS observation `key in o && typeof o[key] === "number"` on an options
record. -/
def isNumericEnumEntry (o : CompilerOptionsMap) (key : String) : Bool :=
  match lookupOption o key with
  | some (.num _) => true
  | _ => false

/-- Lines 58-62 of the source: at least one of the five enum-typed fields of
an options record holds a numeric value. -/
def hasNumericEnumFieldRecord (o : CompilerOptionsMap) : Bool :=
  isNumericEnumEntry o "module" || isNumericEnumEntry o "target" || isNumericEnumEntry o "jsx" ||
    isNumericEnumEntry o "moduleResolution" || isNumericEnumEntry o "newLine"

/-- The observation feeding `isCompilerOptions`: the input is an options
record with at least one numeric enum-typed field. -/
def hasNumericEnumField : Option TsconfigInput → Bool
  | some (.optionsRecord o) => hasNumericEnumFieldRecord o
  | _ => false

/-- Source translation of `isParsedCommandLine` (line 14): non-null, not a
string, not a function, has `options`, lacks `hook`. -/
def isParsedCommandLine (tsconfig : Option TsconfigInput) : Bool :=
  tsconfig.isSome && !typeofIsString tsconfig && !typeofIsFunction tsconfig &&
    hasOptionsField tsconfig && !hasHookField tsconfig

/-- Source translation of `isRawCompilerOptions` (line 23): non-null, not a
string, not a function, lacks `options`, lacks `hook`. -/
def isRawCompilerOptions (tsconfig : Option TsconfigInput) : Bool :=
  tsconfig.isSome && !typeofIsString tsconfig && !typeofIsFunction tsconfig &&
    !hasOptionsField tsconfig && !hasHookField tsconfig

/-- Source translation of `isTsConfigResolver` (line 32): non-null and a
function. -/
def isTsConfigResolver (tsconfig : Option TsconfigInput) : Bool :=
  tsconfig.isSome && typeofIsFunction tsconfig

/-- Source translation of `isTsConfigResolverWithFileName` (line 42):
non-null, not a string, not a function, lacks `options`, has `hook`. -/
def isTsConfigResolverWithFileName (tsconfig : Option TsconfigInput) : Bool :=
  tsconfig.isSome && !typeofIsString tsconfig && !typeofIsFunction tsconfig &&
    !hasOptionsField tsconfig && hasHookField tsconfig

/-- Source translation of `isCompilerOptions` (line 51): the raw-options
conditions plus at least one numeric enum-typed field. -/
def isCompilerOptions (tsconfig : Option TsconfigInput) : Bool :=
  tsconfig.isSome && !typeofIsString tsconfig && !typeofIsFunction tsconfig &&
    !hasOptionsField tsconfig && !hasHookField tsconfig && hasNumericEnumField tsconfig

/-- The result record of `getParsedCommandLine`. -/
structure GetParsedCommandLineResult where
  parsedCommandLine : ParsedCommandLine
  originalCompilerOptions : CompilerOptionsMap
deriving DecidableEq

/-- The outcome of one call, with the heap effect made explicit:
`inputObjectAfter` is the state of a caller-supplied pre-parsed command line
object after the call (the source mutates it in place in that branch and
returns the very same object); it is `none` when the input was not such an
object. -/
structure GetParsedCommandLineOutcome where
  result : GetParsedCommandLineResult
  inputObjectAfter : Option ParsedCommandLine
deriving DecidableEq

/-- Line 133 of the source: remove all non-declaration files from the file
list (applied to every variant's parsedCommandLine before returning). -/
def filterDeclarationFileNames (p : ParsedCommandLine) : ParsedCommandLine :=
  { p with fileNames := p.fileNames.filter (fun file => stringEndsWith file DECLARATION_EXTENSION) }

/-- Line 115 of the source: the message of the ReferenceError thrown for an
absent explicitly-supplied tsconfig (apostrophes written as \x27). -/
def tsconfigMissingMessage (tsconfigPath : String) : String :=
  "The given tsconfig: \x27" ++ tsconfigPath ++ "\x27 doesn\x27t exist!"

/-- Line 101 of the source: the absolute configuration path attempted by the
path/resolver branch — the record's fileName for a resolver-with-filename, the
string itself for a path, and the conventional `tsconfig.json` otherwise (the
remaining shapes never reach this code path). -/
def resolvedTsconfigPath (cwd : String) (tsconfig : Option TsconfigInput) : String :=
  ensureAbsolute cwd
    (match tsconfig with
      | some (.resolverWithFileName fileName _) => fileName
      | some (.path p) => p
      | _ => "tsconfig.json")

/-- Lines 118-129 of the source: parse the resolved configuration twice (once
without the forced options for `originalCompilerOptions`, once with them) and,
when a resolver function or `hook` was supplied, pass the computed options
through it and splice the forced options back in afterwards — on both the
original and the canonical pass. Returns (parsedCommandLine,
originalCompilerOptions). -/
def parseResolvedTsconfig (env : FileSystemEnv) (cwd : String)
    (tsconfig : Option TsconfigInput) (forcedCompilerOptions : CompilerOptionsMap)
    (json : TsConfigJson) : ParsedCommandLine × CompilerOptionsMap :=
  let originalCompilerOptions := (parseJsonConfigFileContent json env.dirFiles cwd []).options
  let parsedCommandLine := parseJsonConfigFileContent json env.dirFiles cwd forcedCompilerOptions
  match tsconfig with
  | some (.resolver f) =>
    ({ parsedCommandLine with
        options := spreadOptions (f parsedCommandLine.options) forcedCompilerOptions },
      spreadOptions (f originalCompilerOptions) forcedCompilerOptions)
  | some (.resolverWithFileName _ hook) =>
    ({ parsedCommandLine with
        options := spreadOptions (hook parsedCommandLine.options) forcedCompilerOptions },
      spreadOptions (hook originalCompilerOptions) forcedCompilerOptions)
  | _ => (parsedCommandLine, originalCompilerOptions)

/-- Source translation of `getParsedCommandLine` (line 71). Branches follow
the source's dispatch: a pre-parsed command line first (its `options` field is
mutated in place and the filtered object is both returned and left behind as
the caller-visible state, hence `inputObjectAfter`), then enum-coded options
(`isCompilerOptions`, tested before the raw variant as in the source), then
raw options, and finally the path/resolver branch with its existence check,
empty-configuration fallback and ReferenceError. Line 133's declaration-file
filter applies to every successful branch. -/
def getParsedCommandLine (env : FileSystemEnv) (cwd : String)
    (tsconfig : Option TsconfigInput) (forcedCompilerOptions : CompilerOptionsMap) :
    Except String GetParsedCommandLineOutcome :=
  let hasProvidedTsconfig := tsconfig.isSome
  match tsconfig with
  | some (.parsedCmdLine pcl) =>
    let originalCompilerOptions := pcl.options
    let withForced := { pcl with options := spreadOptions pcl.options forcedCompilerOptions }
    let final := filterDeclarationFileNames withForced
    .ok { result := { parsedCommandLine := final, originalCompilerOptions := originalCompilerOptions }
          inputObjectAfter := some final }
  | some (.optionsRecord o) =>
    if hasNumericEnumFieldRecord o then
      let originalCompilerOptions :=
        (parseJsonConfigFileContent emptyTsConfigJson env.dirFiles cwd o).options
      let parsedCommandLine :=
        parseJsonConfigFileContent emptyTsConfigJson env.dirFiles cwd
          (spreadOptions o forcedCompilerOptions)
      .ok { result := { parsedCommandLine := filterDeclarationFileNames parsedCommandLine
                        originalCompilerOptions := originalCompilerOptions }
            inputObjectAfter := none }
    else
      let originalCompilerOptions :=
        (parseJsonConfigFileContent { compilerOptions := o, files := none } env.dirFiles cwd []).options
      let parsedCommandLine :=
        parseJsonConfigFileContent { compilerOptions := o, files := none } env.dirFiles cwd
          forcedCompilerOptions
      .ok { result := { parsedCommandLine := filterDeclarationFileNames parsedCommandLine
                        originalCompilerOptions := originalCompilerOptions }
            inputObjectAfter := none }
  | _ =>
    let tsconfigPath := resolvedTsconfigPath cwd tsconfig
    if fileExistsSync env tsconfigPath then
      let pair := parseResolvedTsconfig env cwd tsconfig forcedCompilerOptions
        (readTsConfigJson env tsconfigPath)
      .ok { result := { parsedCommandLine := filterDeclarationFileNames pair.1
                        originalCompilerOptions := pair.2 }
            inputObjectAfter := none }
    else if hasProvidedTsconfig = false then
      let pair := parseResolvedTsconfig env cwd tsconfig forcedCompilerOptions emptyTsConfigJson
      .ok { result := { parsedCommandLine := filterDeclarationFileNames pair.1
                        originalCompilerOptions := pair.2 }
            inputObjectAfter := none }
    else
      .error (tsconfigMissingMessage tsconfigPath)

deriving instance DecidableEq for Except

/-- The originalCompilerOptions of a call outcome (empty for the error case;
used to state concrete counterexamples compactly). -/
def originalOptionsOf (r : Except String GetParsedCommandLineOutcome) : CompilerOptionsMap :=
  match r with
  | .ok o => o.result.originalCompilerOptions
  | .error _ => []

/-- The canonical options of a call outcome (empty for the error case). -/
def canonicalOptionsOf (r : Except String GetParsedCommandLineOutcome) : CompilerOptionsMap :=
  match r with
  | .ok o => o.result.parsedCommandLine.options
  | .error _ => []

/-- The file list of a call outcome (empty for the error case). -/
def fileNamesOf (r : Except String GetParsedCommandLineOutcome) : List String :=
  match r with
  | .ok o => o.result.parsedCommandLine.fileNames
  | .error _ => []

/-- The final state of a caller-supplied pre-parsed command line object
(`none` for the error case and for the other input variants). -/
def inputObjectAfterOf (r : Except String GetParsedCommandLineOutcome) : Option ParsedCommandLine :=
  match r with
  | .ok o => o.inputObjectAfter
  | .error _ => none

/-- A file system with no files at all. -/
def emptyEnv : FileSystemEnv :=
  { files := [], dirFiles := [] }

/-- A file system whose only file is a default `/proj/tsconfig.json` with an
empty compilerOptions object and an explicitly empty files list. -/
def defaultTsconfigEnv : FileSystemEnv :=
  { files := [("/proj/tsconfig.json", { compilerOptions := [], files := some [] })]
    dirFiles := [] }

/-- Claim C1 as stated: whenever a key of forcedCompilerOptions appears in the
returned originalCompilerOptions with the forced value, the base input must
already have specified that exact value independently — read, following the
code's notion of the pre-override configuration, as: the same call with no
forced overrides already yields that key and value in its
originalCompilerOptions. -/
def ForcedNeverLeaksIntoOriginalOptions : Prop :=
  ∀ env cwd tsconfig forced o k v,
    getParsedCommandLine env cwd tsconfig forced = .ok o →
    lookupOption forced k = some v →
    lookupOption o.result.originalCompilerOptions k = some v →
    lookupOption (originalOptionsOf (getParsedCommandLine env cwd tsconfig [])) k = some v

/-- Follows the claim's wording for C3: the configuration file path a caller
explicitly supplied — a path string, or the fileName of a resolver-with-
filename record; other inputs supply no explicit path. -/
def explicitTsconfigPath : Option TsconfigInput → Option String
  | some (.path p) => some p
  | some (.resolverWithFileName fileName _) => some fileName
  | _ => none

/-- Claim C3 as stated: the call fails if and only if the caller explicitly
supplied a configuration file path that does not exist on disk. -/
def ThrowIffExplicitPathMissing : Prop :=
  ∀ env cwd tsconfig forced,
    (∃ e, getParsedCommandLine env cwd tsconfig forced = .error e) ↔
      (∃ p, explicitTsconfigPath tsconfig = some p ∧
        fileExistsSync env (ensureAbsolute cwd p) = false)

/-- The number of true entries of a list of booleans. -/
def countTrue (l : List Bool) : Nat :=
  (l.filter id).length

/-- Claim C4 as stated: every configuration input satisfies exactly one of the
five discriminator predicates. -/
def ExactlyOneDiscriminator : Prop :=
  ∀ tsconfig : Option TsconfigInput,
    countTrue [isParsedCommandLine tsconfig, isCompilerOptions tsconfig,
      isRawCompilerOptions tsconfig, isTsConfigResolver tsconfig,
      isTsConfigResolverWithFileName tsconfig] = 1

/-- Claim C6 as stated: the pre-parsed command line branch keeps the file list
and diagnostics as-is, records the input's options as originalCompilerOptions
and sets the canonical options to the spread of input options and forced
options. -/
def ParsedCommandLineKeptAsIs : Prop :=
  ∀ env cwd pcl forced o,
    getParsedCommandLine env cwd (some (.parsedCmdLine pcl)) forced = .ok o →
    o.result.parsedCommandLine.fileNames = pcl.fileNames ∧
    o.result.parsedCommandLine.errors = pcl.errors ∧
    o.result.originalCompilerOptions = pcl.options ∧
    o.result.parsedCommandLine.options = spreadOptions pcl.options forced

/-- Claim C9 as stated (the part the embedding can observe): a caller-supplied
pre-parsed command line object is left unmodified by the call. -/
def InputObjectLeftUnmodified : Prop :=
  ∀ env cwd pcl forced o,
    getParsedCommandLine env cwd (some (.parsedCmdLine pcl)) forced = .ok o →
    o.inputObjectAfter = some pcl

/-- Modelled from the spec: the effective base compiler options denoted by a
configuration input (the premise of the spec's variant-independence property):
the recorded options of a pre-parsed command line, the record itself for an
enum-coded record, the enum-translated record for a raw record, and the
enum-translated compilerOptions of the referenced file for a path that exists
on disk. -/
def effectiveBaseOptions (env : FileSystemEnv) (cwd : String) :
    Option TsconfigInput → Option CompilerOptionsMap
  | some (.parsedCmdLine pcl) => some pcl.options
  | some (.optionsRecord o) =>
    some (if hasNumericEnumFieldRecord o then o else convertCompilerOptions o)
  | some (.path p) =>
    if fileExistsSync env (ensureAbsolute cwd p) then
      some (convertCompilerOptions (readTsConfigJson env (ensureAbsolute cwd p)).compilerOptions)
    else
      none
  | _ => none

theorem lookupOption_append (a b : CompilerOptionsMap) (k : String) :
    lookupOption (a ++ b) k = optionOr (lookupOption a k) (lookupOption b k) := by
  induction a with
  | nil => simp [lookupOption, optionOr]
  | cons hd tl ih =>
    cases hd with
    | mk hk hv =>
      by_cases h : hk = k
      · simp [lookupOption, h, optionOr]
      · simp [lookupOption, h, ih]

theorem lookupOption_spread (base overrides : CompilerOptionsMap) (k : String) :
    lookupOption (spreadOptions base overrides) k =
      optionOr (lookupOption overrides k) (lookupOption base k) := by
  simp [spreadOptions, lookupOption_append]

/-- C2: pickResolvedModule with preferAmbient = true returns the ambient
resolution when present and otherwise the concrete resolution; with
preferAmbient = false it returns exactly the concrete resolution regardless of
the ambient field. -/
theorem pickResolvedModule_spec (ref : ExtendedResolvedModule) :
    (∀ a, ref.resolvedAmbientFileName = some a → pickResolvedModule ref true = some a) ∧
    (ref.resolvedAmbientFileName = none → pickResolvedModule ref true = ref.resolvedFileName) ∧
    pickResolvedModule ref false = ref.resolvedFileName := by
  refine ⟨?_, ?_, rfl⟩
  · intro a ha
    simp [pickResolvedModule, ha]
  · intro ha
    simp [pickResolvedModule, ha]

/-- Witness for C2 at the concrete reference of Scenario D of the spec. -/
theorem pickResolvedModule_spec_witness :
    pickResolvedModule ⟨some "/src/a.d.ts", some "/lib/global.d.ts"⟩ true = some "/lib/global.d.ts" ∧
    pickResolvedModule ⟨some "/src/a.d.ts", some "/lib/global.d.ts"⟩ false = some "/src/a.d.ts" :=
  ⟨(pickResolvedModule_spec ⟨some "/src/a.d.ts", some "/lib/global.d.ts"⟩).1 "/lib/global.d.ts" rfl,
   (pickResolvedModule_spec ⟨some "/src/a.d.ts", some "/lib/global.d.ts"⟩).2.2⟩

/-- C8: when at least one of the two resolution fields is populated, the
ambient-preferring call returns a defined path (and, being a total function in
this embedding, raises no error). -/
theorem pickResolvedModule_preferAmbient_isSome (ref : ExtendedResolvedModule)
    (h : ref.resolvedFileName.isSome = true ∨ ref.resolvedAmbientFileName.isSome = true) :
    (pickResolvedModule ref true).isSome = true := by
  cases ha : ref.resolvedAmbientFileName with
  | some a => simp [pickResolvedModule, ha]
  | none =>
    cases hf : ref.resolvedFileName with
    | some f => simp [pickResolvedModule, ha, hf]
    | none =>
      rcases h with h | h
      · rw [hf] at h
        simp at h
      · rw [ha] at h
        simp at h

/-- Witness for C8 at a concrete purely-concrete resolution record. -/
theorem pickResolvedModule_preferAmbient_isSome_witness :
    (pickResolvedModule ⟨some "/src/a.d.ts", none⟩ true).isSome = true :=
  pickResolvedModule_preferAmbient_isSome ⟨some "/src/a.d.ts", none⟩ (Or.inl rfl)

/-- C10: pickResolvedModule is total: on a record with both fields absent it
returns undefined for every value of preferAmbient (the erased non-null
assertion degrades to an undefined result, not a crash). -/
theorem pickResolvedModule_allEmpty (preferAmbient : Bool) :
    pickResolvedModule ⟨none, none⟩ preferAmbient = none := by
  cases preferAmbient <;> rfl


theorem getParsedCommandLine_parsedCmdLine_eval (env : FileSystemEnv) (cwd : String)
    (pcl : ParsedCommandLine) (forced : CompilerOptionsMap) :
    getParsedCommandLine env cwd (some (.parsedCmdLine pcl)) forced =
      .ok ⟨⟨filterDeclarationFileNames { pcl with options := spreadOptions pcl.options forced },
            pcl.options⟩,
          some (filterDeclarationFileNames { pcl with options := spreadOptions pcl.options forced })⟩ :=
  rfl

theorem getParsedCommandLine_optionsRecord_enum_eval (env : FileSystemEnv) (cwd : String)
    (o : CompilerOptionsMap) (forced : CompilerOptionsMap)
    (h : hasNumericEnumFieldRecord o = true) :
    getParsedCommandLine env cwd (some (.optionsRecord o)) forced =
      .ok ⟨⟨filterDeclarationFileNames
              (parseJsonConfigFileContent emptyTsConfigJson env.dirFiles cwd (spreadOptions o forced)),
            (parseJsonConfigFileContent emptyTsConfigJson env.dirFiles cwd o).options⟩,
          none⟩ := by
  simp [getParsedCommandLine, h]

theorem getParsedCommandLine_optionsRecord_raw_eval (env : FileSystemEnv) (cwd : String)
    (o : CompilerOptionsMap) (forced : CompilerOptionsMap)
    (h : hasNumericEnumFieldRecord o = false) :
    getParsedCommandLine env cwd (some (.optionsRecord o)) forced =
      .ok ⟨⟨filterDeclarationFileNames
              (parseJsonConfigFileContent ⟨o, none⟩ env.dirFiles cwd forced),
            (parseJsonConfigFileContent ⟨o, none⟩ env.dirFiles cwd []).options⟩,
          none⟩ := by
  simp [getParsedCommandLine, h]

theorem getParsedCommandLine_none_eval (env : FileSystemEnv) (cwd : String)
    (forced : CompilerOptionsMap) :
    getParsedCommandLine env cwd none forced =
      (if fileExistsSync env (resolvedTsconfigPath cwd none) then
        .ok ⟨⟨filterDeclarationFileNames
                (parseResolvedTsconfig env cwd none forced
                  (readTsConfigJson env (resolvedTsconfigPath cwd none))).1,
              (parseResolvedTsconfig env cwd none forced
                (readTsConfigJson env (resolvedTsconfigPath cwd none))).2⟩,
            none⟩
      else
        .ok ⟨⟨filterDeclarationFileNames
                (parseResolvedTsconfig env cwd none forced emptyTsConfigJson).1,
              (parseResolvedTsconfig env cwd none forced emptyTsConfigJson).2⟩,
            none⟩) :=
  rfl

theorem getParsedCommandLine_path_eval (env : FileSystemEnv) (cwd : String) (p : String)
    (forced : CompilerOptionsMap) :
    getParsedCommandLine env cwd (some (.path p)) forced =
      (if fileExistsSync env (resolvedTsconfigPath cwd (some (.path p))) then
        .ok ⟨⟨filterDeclarationFileNames
                (parseResolvedTsconfig env cwd (some (.path p)) forced
                  (readTsConfigJson env (resolvedTsconfigPath cwd (some (.path p))))).1,
              (parseResolvedTsconfig env cwd (some (.path p)) forced
                (readTsConfigJson env (resolvedTsconfigPath cwd (some (.path p))))).2⟩,
            none⟩
      else
        .error (tsconfigMissingMessage (resolvedTsconfigPath cwd (some (.path p))))) :=
  rfl

theorem getParsedCommandLine_resolver_eval (env : FileSystemEnv) (cwd : String)
    (f : CompilerOptionsMap → CompilerOptionsMap) (forced : CompilerOptionsMap) :
    getParsedCommandLine env cwd (some (.resolver f)) forced =
      (if fileExistsSync env (resolvedTsconfigPath cwd (some (.resolver f))) then
        .ok ⟨⟨filterDeclarationFileNames
                (parseResolvedTsconfig env cwd (some (.resolver f)) forced
                  (readTsConfigJson env (resolvedTsconfigPath cwd (some (.resolver f))))).1,
              (parseResolvedTsconfig env cwd (some (.resolver f)) forced
                (readTsConfigJson env (resolvedTsconfigPath cwd (some (.resolver f))))).2⟩,
            none⟩
      else
        .error (tsconfigMissingMessage (resolvedTsconfigPath cwd (some (.resolver f))))) :=
  rfl

theorem getParsedCommandLine_resolverWithFileName_eval (env : FileSystemEnv) (cwd : String)
    (fileName : String) (hook : CompilerOptionsMap → CompilerOptionsMap)
    (forced : CompilerOptionsMap) :
    getParsedCommandLine env cwd (some (.resolverWithFileName fileName hook)) forced =
      (if fileExistsSync env (resolvedTsconfigPath cwd (some (.resolverWithFileName fileName hook))) then
        .ok ⟨⟨filterDeclarationFileNames
                (parseResolvedTsconfig env cwd (some (.resolverWithFileName fileName hook)) forced
                  (readTsConfigJson env
                    (resolvedTsconfigPath cwd (some (.resolverWithFileName fileName hook))))).1,
              (parseResolvedTsconfig env cwd (some (.resolverWithFileName fileName hook)) forced
                (readTsConfigJson env
                  (resolvedTsconfigPath cwd (some (.resolverWithFileName fileName hook))))).2⟩,
            none⟩
      else
        .error
          (tsconfigMissingMessage (resolvedTsconfigPath cwd (some (.resolverWithFileName fileName hook))))) :=
  rfl

theorem stringEndsWith_of_mem_filterDeclarationFileNames {f : String} {p : ParsedCommandLine}
    (hf : f ∈ (filterDeclarationFileNames p).fileNames) :
    stringEndsWith f DECLARATION_EXTENSION = true := by
  simp only [filterDeclarationFileNames, List.mem_filter] at hf
  exact hf.2

/-- C7: for every configuration input variant, every entry of the fileNames
list of the parsedCommandLine returned by getParsedCommandLine ends with the
declaration-file extension, even when the underlying configuration lists mixed
file types. -/
theorem getParsedCommandLine_fileNames_declarationOnly (env : FileSystemEnv) (cwd : String)
    (tsconfig : Option TsconfigInput) (forced : CompilerOptionsMap)
    (o : GetParsedCommandLineOutcome)
    (h : getParsedCommandLine env cwd tsconfig forced = .ok o) :
    ∀ file ∈ o.result.parsedCommandLine.fileNames,
      stringEndsWith file DECLARATION_EXTENSION = true := by
  intro file hf
  cases tsconfig with
  | none =>
    rw [getParsedCommandLine_none_eval] at h
    by_cases hex : fileExistsSync env (resolvedTsconfigPath cwd none) = true
    · rw [if_pos hex] at h
      simp only [Except.ok.injEq] at h
      subst h
      exact stringEndsWith_of_mem_filterDeclarationFileNames hf
    · rw [if_neg hex] at h
      simp only [Except.ok.injEq] at h
      subst h
      exact stringEndsWith_of_mem_filterDeclarationFileNames hf
  | some t =>
    cases t with
    | parsedCmdLine pcl =>
      rw [getParsedCommandLine_parsedCmdLine_eval] at h
      simp only [Except.ok.injEq] at h
      subst h
      exact stringEndsWith_of_mem_filterDeclarationFileNames hf
    | optionsRecord rec =>
      by_cases henum : hasNumericEnumFieldRecord rec = true
      · rw [getParsedCommandLine_optionsRecord_enum_eval env cwd rec forced henum] at h
        simp only [Except.ok.injEq] at h
        subst h
        exact stringEndsWith_of_mem_filterDeclarationFileNames hf
      · rw [getParsedCommandLine_optionsRecord_raw_eval env cwd rec forced
          (Bool.not_eq_true _ ▸ henum)] at h
        simp only [Except.ok.injEq] at h
        subst h
        exact stringEndsWith_of_mem_filterDeclarationFileNames hf
    | path p =>
      rw [getParsedCommandLine_path_eval] at h
      by_cases hex : fileExistsSync env (resolvedTsconfigPath cwd (some (.path p))) = true
      · rw [if_pos hex] at h
        simp only [Except.ok.injEq] at h
        subst h
        exact stringEndsWith_of_mem_filterDeclarationFileNames hf
      · rw [if_neg hex] at h
        exact absurd h (by simp)
    | resolver fr =>
      rw [getParsedCommandLine_resolver_eval] at h
      by_cases hex : fileExistsSync env (resolvedTsconfigPath cwd (some (.resolver fr))) = true
      · rw [if_pos hex] at h
        simp only [Except.ok.injEq] at h
        subst h
        exact stringEndsWith_of_mem_filterDeclarationFileNames hf
      · rw [if_neg hex] at h
        exact absurd h (by simp)
    | resolverWithFileName fn hk =>
      rw [getParsedCommandLine_resolverWithFileName_eval] at h
      by_cases hex :
          fileExistsSync env (resolvedTsconfigPath cwd (some (.resolverWithFileName fn hk))) = true
      · rw [if_pos hex] at h
        simp only [Except.ok.injEq] at h
        subst h
        exact stringEndsWith_of_mem_filterDeclarationFileNames hf
      · rw [if_neg hex] at h
        exact absurd h (by simp)

/-- Witness for C7: a mixed file list supplied through a pre-parsed command
line leaves only the declaration file, which carries the extension. -/
theorem getParsedCommandLine_fileNames_declarationOnly_witness :
    stringEndsWith "/proj/b.d.ts" DECLARATION_EXTENSION = true :=
  getParsedCommandLine_fileNames_declarationOnly emptyEnv "/proj"
    (some (.parsedCmdLine ⟨[], ["/proj/a.ts", "/proj/b.d.ts"], []⟩)) []
    ⟨⟨⟨[], ["/proj/b.d.ts"], []⟩, []⟩, some ⟨[], ["/proj/b.d.ts"], []⟩⟩
    (by decide) "/proj/b.d.ts" (by decide)

/-- C6 counterexample: the pre-parsed command line branch does not keep the
file list as-is — a non-declaration file listed by the caller is removed by
the common declaration filter, so the claim fails at a pre-parsed command line
whose fileNames hold the single entry "/proj/index.ts". -/
theorem parsedCmdLineKeptAsIs_counterexample : ¬ ParsedCommandLineKeptAsIs := by
  intro h
  have hc :=
    (h emptyEnv "/proj" ⟨[], ["/proj/index.ts"], []⟩ []
      ⟨⟨⟨[], [], []⟩, []⟩, some ⟨[], [], []⟩⟩ (by decide)).1
  exact absurd hc (by decide)

/-- C6 amended: when the supplied tsconfig is a pre-parsed command line,
getParsedCommandLine keeps its diagnostics as-is, keeps its file list as-is up
to the common declaration-extension filter, records its pre-call options as
originalCompilerOptions, and sets the canonical options to the spread of the
input options and the forced options, so every forced override key ends with
the forced value. -/
theorem parsedCmdLine_branch_amended (env : FileSystemEnv) (cwd : String)
    (pcl : ParsedCommandLine) (forced : CompilerOptionsMap) (o : GetParsedCommandLineOutcome)
    (h : getParsedCommandLine env cwd (some (.parsedCmdLine pcl)) forced = .ok o) :
    o.result.parsedCommandLine.errors = pcl.errors ∧
    o.result.parsedCommandLine.fileNames =
      pcl.fileNames.filter (fun file => stringEndsWith file DECLARATION_EXTENSION) ∧
    o.result.originalCompilerOptions = pcl.options ∧
    o.result.parsedCommandLine.options = spreadOptions pcl.options forced ∧
    (∀ k v, lookupOption forced k = some v →
      lookupOption o.result.parsedCommandLine.options k = some v) := by
  rw [getParsedCommandLine_parsedCmdLine_eval] at h
  simp only [Except.ok.injEq] at h
  subst h
  refine ⟨rfl, rfl, rfl, rfl, ?_⟩
  intro k v hv
  show lookupOption (spreadOptions pcl.options forced) k = some v
  rw [lookupOption_spread, hv]
  rfl

/-- Witness for C6 amended at a concrete pre-parsed command line with a mixed
file list and one forced override. -/
theorem parsedCmdLine_branch_amended_witness :
    (⟨⟨⟨[("declaration", .bool true)], ["/proj/b.d.ts"], ["diag"]⟩, []⟩,
        some ⟨[("declaration", .bool true)], ["/proj/b.d.ts"], ["diag"]⟩⟩ :
        GetParsedCommandLineOutcome).result.parsedCommandLine.errors = ["diag"] ∧
    (⟨⟨⟨[("declaration", .bool true)], ["/proj/b.d.ts"], ["diag"]⟩, []⟩,
        some ⟨[("declaration", .bool true)], ["/proj/b.d.ts"], ["diag"]⟩⟩ :
        GetParsedCommandLineOutcome).result.parsedCommandLine.fileNames =
      (["/proj/a.ts", "/proj/b.d.ts"].filter
        (fun file => stringEndsWith file DECLARATION_EXTENSION)) ∧
    (⟨⟨⟨[("declaration", .bool true)], ["/proj/b.d.ts"], ["diag"]⟩, []⟩,
        some ⟨[("declaration", .bool true)], ["/proj/b.d.ts"], ["diag"]⟩⟩ :
        GetParsedCommandLineOutcome).result.originalCompilerOptions = [] ∧
    (⟨⟨⟨[("declaration", .bool true)], ["/proj/b.d.ts"], ["diag"]⟩, []⟩,
        some ⟨[("declaration", .bool true)], ["/proj/b.d.ts"], ["diag"]⟩⟩ :
        GetParsedCommandLineOutcome).result.parsedCommandLine.options =
      spreadOptions [] [("declaration", .bool true)] ∧
    (∀ k v, lookupOption [("declaration", .bool true)] k = some v →
      lookupOption
        ((⟨⟨⟨[("declaration", .bool true)], ["/proj/b.d.ts"], ["diag"]⟩, []⟩,
            some ⟨[("declaration", .bool true)], ["/proj/b.d.ts"], ["diag"]⟩⟩ :
            GetParsedCommandLineOutcome).result.parsedCommandLine.options) k = some v) :=
  parsedCmdLine_branch_amended emptyEnv "/proj" ⟨[], ["/proj/a.ts", "/proj/b.d.ts"], ["diag"]⟩
    [("declaration", .bool true)]
    ⟨⟨⟨[("declaration", .bool true)], ["/proj/b.d.ts"], ["diag"]⟩, []⟩,
      some ⟨[("declaration", .bool true)], ["/proj/b.d.ts"], ["diag"]⟩⟩
    (by decide)

/-- C9 counterexample: the call is not free of caller-visible mutation — the
caller-supplied pre-parsed command line object ends the call with its options
overwritten by the forced merge (and its file list filtered), so the claim
fails at an object with empty options and forced declaration = true. -/
theorem inputObjectUnmodified_counterexample : ¬ InputObjectLeftUnmodified := by
  intro h
  have hc :=
    h emptyEnv "/proj" ⟨[], ["/proj/index.d.ts"], []⟩ [("declaration", .bool true)]
      ⟨⟨⟨[("declaration", .bool true)], ["/proj/index.d.ts"], []⟩, []⟩,
        some ⟨[("declaration", .bool true)], ["/proj/index.d.ts"], []⟩⟩ (by decide)
  exact absurd hc (by decide)

/-- C9 amended: the only heap effect of getParsedCommandLine besides the
file-system existence check and read of the path/resolver branch is the
in-place update of a caller-supplied pre-parsed command line object: that
object ends the call identical to the returned parsedCommandLine (they alias),
with its options replaced by the forced merge and its file list filtered to
declaration files; for every other input variant no caller-supplied object is
touched. -/
theorem inputObject_mutation_amended (env : FileSystemEnv) (cwd : String)
    (tsconfig : Option TsconfigInput) (forced : CompilerOptionsMap)
    (o : GetParsedCommandLineOutcome)
    (h : getParsedCommandLine env cwd tsconfig forced = .ok o) :
    (∀ pcl, tsconfig = some (.parsedCmdLine pcl) →
      o.inputObjectAfter = some o.result.parsedCommandLine ∧
      o.result.parsedCommandLine.options = spreadOptions pcl.options forced ∧
      o.result.parsedCommandLine.fileNames =
        pcl.fileNames.filter (fun file => stringEndsWith file DECLARATION_EXTENSION)) ∧
    (isParsedCommandLine tsconfig = false → o.inputObjectAfter = none) := by
  constructor
  · intro pcl hpcl
    subst hpcl
    rw [getParsedCommandLine_parsedCmdLine_eval] at h
    simp only [Except.ok.injEq] at h
    subst h
    exact ⟨rfl, rfl, rfl⟩
  · intro hnot
    cases tsconfig with
    | none =>
      rw [getParsedCommandLine_none_eval] at h
      by_cases hex : fileExistsSync env (resolvedTsconfigPath cwd none) = true
      · rw [if_pos hex] at h
        simp only [Except.ok.injEq] at h
        subst h
        rfl
      · rw [if_neg hex] at h
        simp only [Except.ok.injEq] at h
        subst h
        rfl
    | some t =>
      cases t with
      | parsedCmdLine pcl =>
        exact absurd hnot (by simp [isParsedCommandLine, typeofIsString, typeofIsFunction,
          hasOptionsField, hasHookField])
      | optionsRecord rec =>
        by_cases henum : hasNumericEnumFieldRecord rec = true
        · rw [getParsedCommandLine_optionsRecord_enum_eval env cwd rec forced henum] at h
          simp only [Except.ok.injEq] at h
          subst h
          rfl
        · rw [getParsedCommandLine_optionsRecord_raw_eval env cwd rec forced
            (Bool.not_eq_true _ ▸ henum)] at h
          simp only [Except.ok.injEq] at h
          subst h
          rfl
      | path p =>
        rw [getParsedCommandLine_path_eval] at h
        by_cases hex : fileExistsSync env (resolvedTsconfigPath cwd (some (.path p))) = true
        · rw [if_pos hex] at h
          simp only [Except.ok.injEq] at h
          subst h
          rfl
        · rw [if_neg hex] at h
          exact absurd h (by simp)
      | resolver fr =>
        rw [getParsedCommandLine_resolver_eval] at h
        by_cases hex : fileExistsSync env (resolvedTsconfigPath cwd (some (.resolver fr))) = true
        · rw [if_pos hex] at h
          simp only [Except.ok.injEq] at h
          subst h
          rfl
        · rw [if_neg hex] at h
          exact absurd h (by simp)
      | resolverWithFileName fn hk =>
        rw [getParsedCommandLine_resolverWithFileName_eval] at h
        by_cases hex :
            fileExistsSync env (resolvedTsconfigPath cwd (some (.resolverWithFileName fn hk))) = true
        · rw [if_pos hex] at h
          simp only [Except.ok.injEq] at h
          subst h
          rfl
        · rw [if_neg hex] at h
          exact absurd h (by simp)

/-- Witness for C9 amended at a concrete pre-parsed command line input. -/
theorem inputObject_mutation_amended_witness :
    (⟨⟨⟨[("declaration", .bool true)], [], []⟩, []⟩,
        some ⟨[("declaration", .bool true)], [], []⟩⟩ :
        GetParsedCommandLineOutcome).inputObjectAfter =
      some (⟨⟨⟨[("declaration", .bool true)], [], []⟩, []⟩,
        some ⟨[("declaration", .bool true)], [], []⟩⟩ :
        GetParsedCommandLineOutcome).result.parsedCommandLine ∧
    (⟨⟨⟨[("declaration", .bool true)], [], []⟩, []⟩,
        some ⟨[("declaration", .bool true)], [], []⟩⟩ :
        GetParsedCommandLineOutcome).result.parsedCommandLine.options =
      spreadOptions [] [("declaration", .bool true)] ∧
    (⟨⟨⟨[("declaration", .bool true)], [], []⟩, []⟩,
        some ⟨[("declaration", .bool true)], [], []⟩⟩ :
        GetParsedCommandLineOutcome).result.parsedCommandLine.fileNames =
      (["/proj/index.ts"].filter (fun file => stringEndsWith file DECLARATION_EXTENSION)) :=
  (inputObject_mutation_amended emptyEnv "/proj"
    (some (.parsedCmdLine ⟨[], ["/proj/index.ts"], []⟩)) [("declaration", .bool true)]
    ⟨⟨⟨[("declaration", .bool true)], [], []⟩, []⟩,
      some ⟨[("declaration", .bool true)], [], []⟩⟩
    (by decide)).1 ⟨[], ["/proj/index.ts"], []⟩ rfl

/-- C1 counterexample: for the resolver-function variant the source splices
the forced options into originalCompilerOptions (line 123), so with an empty
base configuration on disk and forced declaration = true, the returned
originalCompilerOptions holds declaration = true although the no-override run
shows the base never specified it. -/
theorem forcedLeak_counterexample : ¬ ForcedNeverLeaksIntoOriginalOptions := by
  intro h
  have hc := h defaultTsconfigEnv "/proj" (some (.resolver (fun opts => opts)))
    [("declaration", .bool true)]
    ⟨⟨⟨[("declaration", .bool true), ("declaration", .bool true)], [], []⟩,
      [("declaration", .bool true)]⟩, none⟩ "declaration" (.bool true)
    (by decide) (by decide) (by decide)
  exact absurd hc (by decide)

/-- C1 amended: for the pre-parsed, enum-coded, raw and plain-path variants
the originalCompilerOptions are computed without the forced options — they are
identical across any two choices of forcedCompilerOptions — so a forced key
with the overridden value appears there only if the base configuration itself
produced it; in the resolver-function and filename-plus-hook variants, by
contrast, every key of forcedCompilerOptions appears in
originalCompilerOptions with the forced value. -/
theorem originalOptions_forced_amended :
    (∀ (env : FileSystemEnv) (cwd : String) (tsconfig : Option TsconfigInput)
        (forced forced2 : CompilerOptionsMap) (o o2 : GetParsedCommandLineOutcome),
      isTsConfigResolver tsconfig = false →
      isTsConfigResolverWithFileName tsconfig = false →
      getParsedCommandLine env cwd tsconfig forced = .ok o →
      getParsedCommandLine env cwd tsconfig forced2 = .ok o2 →
      o.result.originalCompilerOptions = o2.result.originalCompilerOptions) ∧
    (∀ (env : FileSystemEnv) (cwd : String) (tsconfig : Option TsconfigInput)
        (forced : CompilerOptionsMap) (o : GetParsedCommandLineOutcome) (k : String)
        (v : JsonValue),
      (isTsConfigResolver tsconfig = true ∨ isTsConfigResolverWithFileName tsconfig = true) →
      getParsedCommandLine env cwd tsconfig forced = .ok o →
      lookupOption forced k = some v →
      lookupOption o.result.originalCompilerOptions k = some v) := by
  constructor
  · intro env cwd tsconfig forced forced2 o o2 hres hwfn h h2
    cases tsconfig with
    | none =>
      rw [getParsedCommandLine_none_eval] at h h2
      by_cases hex : fileExistsSync env (resolvedTsconfigPath cwd none) = true
      · rw [if_pos hex] at h h2
        simp only [Except.ok.injEq] at h h2
        subst h
        subst h2
        rfl
      · rw [if_neg hex] at h h2
        simp only [Except.ok.injEq] at h h2
        subst h
        subst h2
        rfl
    | some t =>
      cases t with
      | parsedCmdLine pcl =>
        rw [getParsedCommandLine_parsedCmdLine_eval] at h h2
        simp only [Except.ok.injEq] at h h2
        subst h
        subst h2
        rfl
      | optionsRecord rec =>
        by_cases henum : hasNumericEnumFieldRecord rec = true
        · rw [getParsedCommandLine_optionsRecord_enum_eval env cwd rec forced henum] at h
          rw [getParsedCommandLine_optionsRecord_enum_eval env cwd rec forced2 henum] at h2
          simp only [Except.ok.injEq] at h h2
          subst h
          subst h2
          rfl
        · rw [getParsedCommandLine_optionsRecord_raw_eval env cwd rec forced
            (Bool.not_eq_true _ ▸ henum)] at h
          rw [getParsedCommandLine_optionsRecord_raw_eval env cwd rec forced2
            (Bool.not_eq_true _ ▸ henum)] at h2
          simp only [Except.ok.injEq] at h h2
          subst h
          subst h2
          rfl
      | path p =>
        rw [getParsedCommandLine_path_eval] at h h2
        by_cases hex : fileExistsSync env (resolvedTsconfigPath cwd (some (.path p))) = true
        · rw [if_pos hex] at h h2
          simp only [Except.ok.injEq] at h h2
          subst h
          subst h2
          rfl
        · rw [if_neg hex] at h
          exact absurd h (by simp)
      | resolver fr =>
        exact absurd hres (by simp [isTsConfigResolver, typeofIsFunction])
      | resolverWithFileName fn hk =>
        exact absurd hwfn (by simp [isTsConfigResolverWithFileName, typeofIsString,
          typeofIsFunction, hasOptionsField, hasHookField])
  · intro env cwd tsconfig forced o k v hdisj h hv
    cases tsconfig with
    | none =>
      rcases hdisj with hd | hd <;> exact absurd hd (by simp [isTsConfigResolver,
        isTsConfigResolverWithFileName, typeofIsFunction, hasHookField])
    | some t =>
      cases t with
      | parsedCmdLine pcl =>
        rcases hdisj with hd | hd <;> exact absurd hd (by simp [isTsConfigResolver,
          isTsConfigResolverWithFileName, typeofIsFunction, hasHookField])
      | optionsRecord rec =>
        rcases hdisj with hd | hd <;> exact absurd hd (by simp [isTsConfigResolver,
          isTsConfigResolverWithFileName, typeofIsFunction, hasHookField])
      | path p =>
        rcases hdisj with hd | hd <;> exact absurd hd (by simp [isTsConfigResolver,
          isTsConfigResolverWithFileName, typeofIsString, typeofIsFunction, hasHookField])
      | resolver fr =>
        rw [getParsedCommandLine_resolver_eval] at h
        by_cases hex : fileExistsSync env (resolvedTsconfigPath cwd (some (.resolver fr))) = true
        · rw [if_pos hex] at h
          simp only [Except.ok.injEq] at h
          subst h
          show lookupOption (spreadOptions _ forced) k = some v
          rw [lookupOption_spread, hv]
          rfl
        · rw [if_neg hex] at h
          exact absurd h (by simp)
      | resolverWithFileName fn hk =>
        rw [getParsedCommandLine_resolverWithFileName_eval] at h
        by_cases hex :
            fileExistsSync env (resolvedTsconfigPath cwd (some (.resolverWithFileName fn hk))) = true
        · rw [if_pos hex] at h
          simp only [Except.ok.injEq] at h
          subst h
          show lookupOption (spreadOptions _ forced) k = some v
          rw [lookupOption_spread, hv]
          rfl
        · rw [if_neg hex] at h
          exact absurd h (by simp)

/-- Witness for C1 amended: an enum-coded record keeps its
originalCompilerOptions across two different forced-override sets, and a
resolver-function input ends with the forced declaration flag inside its
originalCompilerOptions. -/
theorem originalOptions_forced_amended_witness :
    (⟨⟨⟨[("declaration", .bool true), ("target", .num 6)], [], []⟩, [("target", .num 6)]⟩, none⟩ :
        GetParsedCommandLineOutcome).result.originalCompilerOptions =
      (⟨⟨⟨[("target", .num 6)], [], []⟩, [("target", .num 6)]⟩, none⟩ :
        GetParsedCommandLineOutcome).result.originalCompilerOptions ∧
    lookupOption
      ((⟨⟨⟨[("declaration", .bool true), ("declaration", .bool true)], [], []⟩,
          [("declaration", .bool true)]⟩, none⟩ :
        GetParsedCommandLineOutcome).result.originalCompilerOptions) "declaration" =
      some (.bool true) :=
  ⟨originalOptions_forced_amended.1 emptyEnv "/proj" (some (.optionsRecord [("target", .num 6)]))
      [("declaration", .bool true)] []
      ⟨⟨⟨[("declaration", .bool true), ("target", .num 6)], [], []⟩, [("target", .num 6)]⟩, none⟩
      ⟨⟨⟨[("target", .num 6)], [], []⟩, [("target", .num 6)]⟩, none⟩
      rfl rfl (by decide) (by decide),
    originalOptions_forced_amended.2 defaultTsconfigEnv "/proj"
      (some (.resolver (fun opts => opts))) [("declaration", .bool true)]
      ⟨⟨⟨[("declaration", .bool true), ("declaration", .bool true)], [], []⟩,
        [("declaration", .bool true)]⟩, none⟩ "declaration" (.bool true)
      (Or.inl rfl) (by decide) (by decide)⟩

/-- C3 counterexample: a caller who supplies only a resolver function supplies
no configuration file path, yet the call fails when the default tsconfig.json
is absent — refuting the only-if direction of the claim. -/
theorem throwIffExplicitPath_counterexample : ¬ ThrowIffExplicitPathMissing := by
  intro h
  have hc := (h emptyEnv "/proj" (some (.resolver (fun opts => opts))) []).mp
    ⟨tsconfigMissingMessage "/proj/tsconfig.json", by decide⟩
  obtain ⟨p, hp, _⟩ := hc
  exact absurd hp (by simp [explicitTsconfigPath])

/-- C3 amended: getParsedCommandLine fails, with the error message naming the
resolved absolute configuration path, exactly when the caller supplied a
tsconfig handled by the path/resolver branch — a path string, a resolver
function, or a filename-plus-hook record — and the resolved path (the given
path, the record's fileName, or the default tsconfig.json for a bare resolver
function) does not exist on disk; with no tsconfig supplied and the default
file absent, it falls back to the empty configuration and does not fail, and a
failing call carries no other error message. -/
theorem getParsedCommandLine_error_amended (env : FileSystemEnv) (cwd : String)
    (tsconfig : Option TsconfigInput) (forced : CompilerOptionsMap) :
    (getParsedCommandLine env cwd tsconfig forced =
        .error (tsconfigMissingMessage (resolvedTsconfigPath cwd tsconfig)) ↔
      (tsconfig.isSome = true ∧ isParsedCommandLine tsconfig = false ∧
        isCompilerOptions tsconfig = false ∧ isRawCompilerOptions tsconfig = false ∧
        fileExistsSync env (resolvedTsconfigPath cwd tsconfig) = false)) ∧
    (∀ e, getParsedCommandLine env cwd tsconfig forced = .error e →
      e = tsconfigMissingMessage (resolvedTsconfigPath cwd tsconfig)) := by
  cases tsconfig with
  | none =>
    rw [getParsedCommandLine_none_eval]
    by_cases hex : fileExistsSync env (resolvedTsconfigPath cwd none) = true
    · rw [if_pos hex]
      exact ⟨⟨fun hE => absurd hE (by simp), fun hconj => absurd hconj.1 (by simp)⟩,
        fun e hE => absurd hE (by simp)⟩
    · rw [if_neg hex]
      exact ⟨⟨fun hE => absurd hE (by simp), fun hconj => absurd hconj.1 (by simp)⟩,
        fun e hE => absurd hE (by simp)⟩
  | some t =>
    cases t with
    | parsedCmdLine pcl =>
      rw [getParsedCommandLine_parsedCmdLine_eval]
      refine ⟨⟨fun hE => absurd hE (by simp), fun hconj => ?_⟩, fun e hE => absurd hE (by simp)⟩
      exact absurd hconj.2.1 (by simp [isParsedCommandLine, typeofIsString, typeofIsFunction,
        hasOptionsField, hasHookField])
    | optionsRecord rec =>
      by_cases henum : hasNumericEnumFieldRecord rec = true
      · rw [getParsedCommandLine_optionsRecord_enum_eval env cwd rec forced henum]
        refine ⟨⟨fun hE => absurd hE (by simp), fun hconj => ?_⟩,
          fun e hE => absurd hE (by simp)⟩
        exact absurd hconj.2.2.2.1 (by simp [isRawCompilerOptions, typeofIsString,
          typeofIsFunction, hasOptionsField, hasHookField])
      · rw [getParsedCommandLine_optionsRecord_raw_eval env cwd rec forced
          (Bool.not_eq_true _ ▸ henum)]
        refine ⟨⟨fun hE => absurd hE (by simp), fun hconj => ?_⟩,
          fun e hE => absurd hE (by simp)⟩
        exact absurd hconj.2.2.2.1 (by simp [isRawCompilerOptions, typeofIsString,
          typeofIsFunction, hasOptionsField, hasHookField])
    | path p =>
      rw [getParsedCommandLine_path_eval]
      by_cases hex : fileExistsSync env (resolvedTsconfigPath cwd (some (.path p))) = true
      · rw [if_pos hex]
        refine ⟨⟨fun hE => absurd hE (by simp), fun hconj => ?_⟩,
          fun e hE => absurd hE (by simp)⟩
        have hff := hconj.2.2.2.2
        rw [hex] at hff
        exact absurd hff (by simp)
      · rw [if_neg hex]
        refine ⟨⟨fun _ => ⟨rfl, rfl, rfl, rfl, Bool.not_eq_true _ ▸ hex⟩, fun _ => rfl⟩,
          fun e hE => ?_⟩
        injection hE with h2
        exact h2.symm
    | resolver fr =>
      rw [getParsedCommandLine_resolver_eval]
      by_cases hex : fileExistsSync env (resolvedTsconfigPath cwd (some (.resolver fr))) = true
      · rw [if_pos hex]
        refine ⟨⟨fun hE => absurd hE (by simp), fun hconj => ?_⟩,
          fun e hE => absurd hE (by simp)⟩
        have hff := hconj.2.2.2.2
        rw [hex] at hff
        exact absurd hff (by simp)
      · rw [if_neg hex]
        refine ⟨⟨fun _ => ⟨rfl, rfl, rfl, rfl, Bool.not_eq_true _ ▸ hex⟩, fun _ => rfl⟩,
          fun e hE => ?_⟩
        injection hE with h2
        exact h2.symm
    | resolverWithFileName fn hk =>
      rw [getParsedCommandLine_resolverWithFileName_eval]
      by_cases hex :
          fileExistsSync env (resolvedTsconfigPath cwd (some (.resolverWithFileName fn hk))) = true
      · rw [if_pos hex]
        refine ⟨⟨fun hE => absurd hE (by simp), fun hconj => ?_⟩,
          fun e hE => absurd hE (by simp)⟩
        have hff := hconj.2.2.2.2
        rw [hex] at hff
        exact absurd hff (by simp)
      · rw [if_neg hex]
        refine ⟨⟨fun _ => ⟨rfl, rfl, rfl, rfl, Bool.not_eq_true _ ▸ hex⟩, fun _ => rfl⟩,
          fun e hE => ?_⟩
        injection hE with h2
        exact h2.symm

/-- Witness for C3 amended: Scenario B of the spec — an explicitly supplied
configuration path that is absent on disk produces the fatal message naming
the resolved absolute path. -/
theorem getParsedCommandLine_error_amended_witness :
    getParsedCommandLine emptyEnv "/proj" (some (.path "tsconfig.custom.json")) [] =
      .error (tsconfigMissingMessage
        (resolvedTsconfigPath "/proj" (some (.path "tsconfig.custom.json")))) :=
  (getParsedCommandLine_error_amended emptyEnv "/proj"
    (some (.path "tsconfig.custom.json")) []).1.mpr ⟨rfl, rfl, rfl, rfl, by decide⟩

/-- C4 counterexample: an enum-coded options record satisfies both
isCompilerOptions and isRawCompilerOptions (the raw predicate does not exclude
numeric enum fields), so the five discriminators are not mutually exclusive
and dispatch depends on isCompilerOptions being tested first. -/
theorem exactlyOneDiscriminator_counterexample : ¬ ExactlyOneDiscriminator := by
  intro h
  have hc := h (some (.optionsRecord [("module", .num 1)]))
  exact absurd hc (by decide)

/-- C4 amended: isParsedCommandLine, isCompilerOptions, isTsConfigResolver and
isTsConfigResolverWithFileName are pairwise exclusive (at most one holds), but
isCompilerOptions implies isRawCompilerOptions, so the chosen variant is
well-defined only because getParsedCommandLine tests isCompilerOptions before
isRawCompilerOptions; isRawCompilerOptions excludes the other three, and a
path string or an absent input satisfies none of the five predicates. -/
theorem discriminators_amended (tsconfig : Option TsconfigInput) :
    countTrue [isParsedCommandLine tsconfig, isCompilerOptions tsconfig,
      isTsConfigResolver tsconfig, isTsConfigResolverWithFileName tsconfig] ≤ 1 ∧
    (isCompilerOptions tsconfig = true → isRawCompilerOptions tsconfig = true) ∧
    (isRawCompilerOptions tsconfig = true →
      isParsedCommandLine tsconfig = false ∧ isTsConfigResolver tsconfig = false ∧
      isTsConfigResolverWithFileName tsconfig = false) ∧
    ((typeofIsString tsconfig = true ∨ tsconfig.isSome = false) →
      countTrue [isParsedCommandLine tsconfig, isCompilerOptions tsconfig,
        isRawCompilerOptions tsconfig, isTsConfigResolver tsconfig,
        isTsConfigResolverWithFileName tsconfig] = 0) := by
  cases tsconfig with
  | none => decide
  | some t =>
    cases t with
    | parsedCmdLine pcl =>
      simp only [isParsedCommandLine, isCompilerOptions, isRawCompilerOptions,
        isTsConfigResolver, isTsConfigResolverWithFileName, typeofIsString, typeofIsFunction,
        hasOptionsField, hasHookField, hasNumericEnumField, Option.isSome_some]
      decide
    | optionsRecord rec =>
      by_cases henum : hasNumericEnumFieldRecord rec = true
      · simp only [isParsedCommandLine, isCompilerOptions, isRawCompilerOptions,
          isTsConfigResolver, isTsConfigResolverWithFileName, typeofIsString, typeofIsFunction,
          hasOptionsField, hasHookField, hasNumericEnumField, Option.isSome_some, henum]
        decide
      · simp only [isParsedCommandLine, isCompilerOptions, isRawCompilerOptions,
          isTsConfigResolver, isTsConfigResolverWithFileName, typeofIsString, typeofIsFunction,
          hasOptionsField, hasHookField, hasNumericEnumField, Option.isSome_some,
          Bool.not_eq_true _ ▸ henum]
        decide
    | path p =>
      simp only [isParsedCommandLine, isCompilerOptions, isRawCompilerOptions,
        isTsConfigResolver, isTsConfigResolverWithFileName, typeofIsString, typeofIsFunction,
        hasOptionsField, hasHookField, hasNumericEnumField, Option.isSome_some]
      decide
    | resolver fr =>
      simp only [isParsedCommandLine, isCompilerOptions, isRawCompilerOptions,
        isTsConfigResolver, isTsConfigResolverWithFileName, typeofIsString, typeofIsFunction,
        hasOptionsField, hasHookField, hasNumericEnumField, Option.isSome_some]
      decide
    | resolverWithFileName fn hk =>
      simp only [isParsedCommandLine, isCompilerOptions, isRawCompilerOptions,
        isTsConfigResolver, isTsConfigResolverWithFileName, typeofIsString, typeofIsFunction,
        hasOptionsField, hasHookField, hasNumericEnumField, Option.isSome_some]
      decide

/-- Witness for C4 amended: the implication from isCompilerOptions to
isRawCompilerOptions, instantiated at a concrete enum-coded record. -/
theorem discriminators_amended_witness :
    isRawCompilerOptions (some (.optionsRecord [("module", .num 1)])) = true :=
  (discriminators_amended (some (.optionsRecord [("module", .num 1)]))).2.1 (by decide)

theorem optionOr_none (a : Option JsonValue) : optionOr a none = a := by
  cases a <;> rfl

theorem canonicalOptions_matchesBase (env : FileSystemEnv) (cwd : String)
    (tsconfig : Option TsconfigInput) (forced b : CompilerOptionsMap)
    (o : GetParsedCommandLineOutcome)
    (hb : effectiveBaseOptions env cwd tsconfig = some b)
    (h : getParsedCommandLine env cwd tsconfig forced = .ok o) :
    OptionsEquiv o.result.parsedCommandLine.options (spreadOptions b forced) := by
  cases tsconfig with
  | none => exact absurd hb (by simp [effectiveBaseOptions])
  | some t =>
    cases t with
    | parsedCmdLine pcl =>
      simp only [effectiveBaseOptions, Option.some.injEq] at hb
      subst hb
      rw [getParsedCommandLine_parsedCmdLine_eval] at h
      simp only [Except.ok.injEq] at h
      subst h
      intro k
      rfl
    | optionsRecord rec =>
      by_cases henum : hasNumericEnumFieldRecord rec = true
      · simp only [effectiveBaseOptions, henum, if_true, Option.some.injEq] at hb
        subst hb
        rw [getParsedCommandLine_optionsRecord_enum_eval env cwd rec forced henum] at h
        simp only [Except.ok.injEq] at h
        subst h
        intro k
        show lookupOption (spreadOptions (convertCompilerOptions [])
          (spreadOptions rec forced)) k = lookupOption (spreadOptions rec forced) k
        rw [lookupOption_spread]
        exact optionOr_none _
      · simp only [effectiveBaseOptions, henum, if_false, Option.some.injEq] at hb
        subst hb
        rw [getParsedCommandLine_optionsRecord_raw_eval env cwd rec forced
          (Bool.not_eq_true _ ▸ henum)] at h
        simp only [Except.ok.injEq] at h
        subst h
        intro k
        rfl
    | path p =>
      rw [getParsedCommandLine_path_eval] at h
      rw [show resolvedTsconfigPath cwd (some (.path p)) = ensureAbsolute cwd p from rfl] at h
      simp only [effectiveBaseOptions] at hb
      by_cases hex : fileExistsSync env (ensureAbsolute cwd p) = true
      · rw [if_pos hex] at h hb
        simp only [Option.some.injEq] at hb
        subst hb
        simp only [Except.ok.injEq] at h
        subst h
        intro k
        rfl
      · rw [if_neg hex] at hb
        exact absurd hb (by simp)
    | resolver fr => exact absurd hb (by simp [effectiveBaseOptions])
    | resolverWithFileName fn hk => exact absurd hb (by simp [effectiveBaseOptions])

/-- C5: any two of the four configuration input variants that denote the same
effective base compiler options yield, under the same forced overrides,
extensionally identical canonical options in the returned parsedCommandLine. -/
theorem canonicalOptions_variantIndependent (env : FileSystemEnv) (cwd : String)
    (t1 t2 : Option TsconfigInput) (forced b1 b2 : CompilerOptionsMap)
    (o1 o2 : GetParsedCommandLineOutcome)
    (hb1 : effectiveBaseOptions env cwd t1 = some b1)
    (hb2 : effectiveBaseOptions env cwd t2 = some b2)
    (hbeq : OptionsEquiv b1 b2)
    (h1 : getParsedCommandLine env cwd t1 forced = .ok o1)
    (h2 : getParsedCommandLine env cwd t2 forced = .ok o2) :
    OptionsEquiv o1.result.parsedCommandLine.options o2.result.parsedCommandLine.options := by
  intro k
  rw [canonicalOptions_matchesBase env cwd t1 forced b1 o1 hb1 h1 k,
    canonicalOptions_matchesBase env cwd t2 forced b2 o2 hb2 h2 k,
    lookupOption_spread, lookupOption_spread, hbeq k]

/-- Witness for C5 at a pre-parsed command line and an enum-coded record that
denote the same base options, with one forced override. -/
theorem canonicalOptions_variantIndependent_witness :
    OptionsEquiv
      (⟨⟨⟨[("declaration", .bool true), ("target", .num 6)], [], []⟩, [("target", .num 6)]⟩,
          some ⟨[("declaration", .bool true), ("target", .num 6)], [], []⟩⟩ :
        GetParsedCommandLineOutcome).result.parsedCommandLine.options
      (⟨⟨⟨[("declaration", .bool true), ("target", .num 6)], [], []⟩, [("target", .num 6)]⟩,
          none⟩ :
        GetParsedCommandLineOutcome).result.parsedCommandLine.options :=
  canonicalOptions_variantIndependent emptyEnv "/proj"
    (some (.parsedCmdLine ⟨[("target", .num 6)], [], []⟩))
    (some (.optionsRecord [("target", .num 6)]))
    [("declaration", .bool true)] [("target", .num 6)] [("target", .num 6)]
    ⟨⟨⟨[("declaration", .bool true), ("target", .num 6)], [], []⟩, [("target", .num 6)]⟩,
      some ⟨[("declaration", .bool true), ("target", .num 6)], [], []⟩⟩
    ⟨⟨⟨[("declaration", .bool true), ("target", .num 6)], [], []⟩, [("target", .num 6)]⟩, none⟩
    rfl (by decide) (fun _ => rfl) (by decide) (by decide)
